import Mathlib

/-!
Verification of the SDL sound backend (`code/sdl/sdl_snd.c`): a shallow
embedding of the playback ring buffer, its hardware callback, device
initialization, shutdown, and the capture path, together with proofs of the
documented properties (output length, cursor invariant, wrap correctness,
silence degradation, buffer sizing, capture zero-fill, failure unwinding,
idempotent shutdown, and the callback's frame condition).

Machine integers of the C source are modelled as `Int`; C's truncating
division and remainder are `Int.tdiv` and `Int.tmod`.  Byte buffers are
`List Nat` (one entry per byte).  The process-wide mutable globals
(`snd_inited`, `dmapos`, `dmasize`, the `dma` struct and the SDL stream
handles) are gathered into one explicit state record that every operation
threads.
-/

namespace SdlSnd

/-- The component's observable state: the globals `snd_inited`, `dmapos`,
`dmasize`, the fields of the shared `dma` struct, and the SDL stream/device
handles.  A playback stream handle is `Option Unit` (present or not); the
capture stream is modelled with its queued bytes.  `masterGain` stands for
the float `sdlMasterGain`; only the values written by the source (1.0,
modelled as 1) and identity of the field matter to the proved properties. -/
@[ext] structure SndState where
  snd_inited : Bool
  dmapos : Int
  dmasize : Int
  buffer : Option (List Nat)
  samplebits : Int
  isfloat : Bool
  channels : Int
  samples : Int
  fullsamples : Int
  submission_chunk : Int
  speed : Int
  sdlPlaybackStream : Option Unit
  sdlPlaybackDevice : Int
  sdlCaptureStream : Option (List Nat)
  sdlCaptureDevice : Int
  audioActive : Bool
  masterGain : Int
deriving DecidableEq

/-- Chunking loop of `SNDDMA_QueueSilence`: while `len > 0` push
`min len 4096` zero bytes and decrease `len`.  The `fuel` argument only
bounds the number of iterations; the wrapper passes `len.toNat`, which is
enough fuel because each pass removes at least one byte. -/
def queueSilenceLoop : Nat → Int → List Nat
  | 0, _ => []
  | fuel + 1, len =>
    if len > 0 then
      let chunk := if len > 4096 then 4096 else len
      List.replicate chunk.toNat 0 ++ queueSilenceLoop fuel (len - chunk)
    else []

/-- `SNDDMA_QueueSilence`: emit exactly `len` zero-valued bytes (in chunks of
at most 4096, the size of the static `silence` array). -/
def SNDDMA_QueueSilence (len : Int) : List Nat :=
  queueSilenceLoop len.toNat len

/-- The `while (len > 0)` drain loop of `SNDDMA_AudioCallback`.  Returns the
final `dmapos`, the remaining (unserved) `len`, and the bytes emitted via
`SDL_PutAudioStreamData`.  `fuel` bounds the iteration count; the callback
passes `len.toNat`, sufficient because every productive pass removes at
least one byte and the loop breaks otherwise. -/
def audioCallbackLoop (buf : List Nat) (dmasize bytesPerSample : Int) :
    Nat → Int → Int → Int × Int × List Nat
  | 0, len, dmapos => (dmapos, len, [])
  | fuel + 1, len, dmapos =>
    if len > 0 then
      let pos := dmapos * bytesPerSample
      let dmapos1 := if pos ≥ dmasize then 0 else dmapos
      let pos1 := if pos ≥ dmasize then 0 else pos
      let len1 := if dmasize - pos1 > len then len else dmasize - pos1
      if len1 ≤ 0 then (dmapos1, len, [])
      else
        let out1 := (buf.drop pos1.toNat).take len1.toNat
        let r := audioCallbackLoop buf dmasize bytesPerSample fuel (len - len1)
          (dmapos1 + len1.tdiv bytesPerSample)
        (r.1, r.2.1, out1 ++ r.2.2)
    else (dmapos, len, [])

/-- Result of one callback invocation: the new state, the bytes pushed to the
output stream, and the console lines printed (the callback prints none). -/
structure CbResult where
  st : SndState
  out : List Nat
  log : List String
deriving DecidableEq

/-- `SNDDMA_AudioCallback`: serve `len` bytes (where `len` is
`additional_amount` if positive, else `total_amount`): nothing for a
non-positive request; all silence on the degraded path (uninitialized, no
buffer, non-positive size or byte width); otherwise drain the ring buffer,
wrapping at its end, pad any shortfall with silence, and finally reset the
cursor if its byte offset reached the end of the buffer. -/
def SNDDMA_AudioCallback (st : SndState) (additional_amount total_amount : Int) :
    CbResult :=
  let len := if additional_amount > 0 then additional_amount else total_amount
  let bytesPerSample := st.samplebits.tdiv 8
  if len ≤ 0 then ⟨st, [], []⟩
  else if st.snd_inited = false ∨ st.buffer = none ∨ st.dmasize ≤ 0 ∨ bytesPerSample ≤ 0 then
    ⟨st, SNDDMA_QueueSilence len, []⟩
  else
    let buf := st.buffer.getD []
    let r := audioCallbackLoop buf st.dmasize bytesPerSample len.toNat len st.dmapos
    let out := r.2.2 ++ (if r.2.1 > 0 then SNDDMA_QueueSilence r.2.1 else [])
    let dmapos2 := if r.1 * bytesPerSample ≥ st.dmasize then 0 else r.1
    ⟨{ st with dmapos := dmapos2 }, out, []⟩

/-- A sequence of callback invocations, each requesting `l` bytes (passed as
the `additional_amount`, with equal `total_amount`); the emitted byte
streams are concatenated in order. -/
def runCallbacks : SndState → List Int → SndState × List Nat
  | st, [] => (st, [])
  | st, len :: rest =>
    let r := SNDDMA_AudioCallback st len len
    let rr := runCallbacks r.st rest
    (rr.1, r.out ++ rr.2)

/-- Ring-buffer sample-count computation of `SNDDMA_Init`: the
`s_sdlMixSamps` override if non-zero, otherwise
`obtainedSamples * channels * 10`; the `channels * 2048` fallback whenever
the chosen value is non-positive; finally rounded down to a multiple of the
channel count (`tmp -= tmp % obtained.channels`). -/
def dmaSamples (mixSamps obtainedSamples channels : Int) : Int :=
  let tmp := if mixSamps = 0 then obtainedSamples * channels * 10 else mixSamps
  let tmp2 := if tmp ≤ 0 then channels * 2048 else tmp
  tmp2 - tmp2.tmod channels

/-- Environment of one `SNDDMA_Init` call: cvar values and the outcomes and
negotiated results of the SDL calls it performs.  `obtainedBits`,
`obtainedIsFloat`, `obtainedChannels`, `obtainedFreq` and `obtainedSamples`
are what `SDL_GetAudioDeviceFormat` reports. -/
structure InitEnv where
  sdlInitOk : Bool
  sdlBits : Int
  sdlSpeed : Int
  sdlChannels : Int
  sdlDevSamps : Int
  sdlMixSamps : Int
  openPlaybackOk : Bool
  playbackDevice : Int
  getFormatOk : Bool
  obtainedBits : Int
  obtainedIsFloat : Bool
  obtainedChannels : Int
  obtainedFreq : Int
  obtainedSamples : Int
  allocOk : Bool
  captureEnabled : Bool
  openCaptureOk : Bool
  captureDevice : Int
deriving DecidableEq

/-- `SNDDMA_Init`: succeed immediately when already initialized, otherwise
initialize the SDL audio subsystem, open the playback stream, read back the
negotiated device format, size and allocate the (zeroed) ring buffer,
optionally open the capture stream, set unity gain and mark the system
initialized — unwinding stream/subsystem on each failure exactly as the
source does.  Console output and the desired-format request built from the
`s_sdlBits`/`s_sdlSpeed`/`s_sdlChannels` cvars are not modelled: the request
only parameterizes the SDL open call, whose outcome and negotiated result
the environment supplies directly. -/
def SNDDMA_Init (env : InitEnv) (st : SndState) : Bool × SndState :=
  if st.snd_inited then (true, st)
  else if env.sdlInitOk = false then (false, st)
  else
    let st1 := { st with audioActive := true }
    if env.openPlaybackOk = false then
      (false, { st1 with audioActive := false })
    else
      let st2 := { st1 with sdlPlaybackStream := some (),
                            sdlPlaybackDevice := env.playbackDevice }
      if env.playbackDevice = 0 ∨ env.getFormatOk = false then
        (false, { st2 with sdlPlaybackStream := none, sdlPlaybackDevice := 0,
                           audioActive := false })
      else
        let tmp := dmaSamples env.sdlMixSamps env.obtainedSamples env.obtainedChannels
        let st3 := { st2 with
          dmapos := 0,
          samplebits := env.obtainedBits,
          isfloat := env.obtainedIsFloat,
          channels := env.obtainedChannels,
          samples := tmp,
          fullsamples := tmp.tdiv env.obtainedChannels,
          submission_chunk := 1,
          speed := env.obtainedFreq,
          dmasize := tmp * (env.obtainedBits.tdiv 8) }
        if env.allocOk = false then
          (false, { st3 with buffer := none, sdlPlaybackStream := none,
                             sdlPlaybackDevice := 0, audioActive := false })
        else
          let st4 := { st3 with buffer := some (List.replicate st3.dmasize.toNat 0) }
          let st5 := if env.captureEnabled ∧ env.openCaptureOk then
              { st4 with sdlCaptureStream := some [],
                         sdlCaptureDevice := env.captureDevice }
            else st4
          let st6 := { st5 with masterGain := 1 }
          (true, { st6 with snd_inited := true })

/-- `SNDDMA_GetDMAPos`: the mixer's read-only view of the cursor. -/
def SNDDMA_GetDMAPos (st : SndState) : Int :=
  st.dmapos

/-- `SNDDMA_Shutdown`: destroy the playback and capture streams when
present, quit the audio subsystem, free the buffer (`free(NULL)` is a
no-op, so the unconditional free is safe), zero `dmapos` and `dmasize`, and
clear the initialized flag.  Also returns the console lines printed. -/
def SNDDMA_Shutdown (st : SndState) : SndState × List String :=
  let log1 := if st.sdlPlaybackStream.isSome then
      ["Closing SDL audio playback device...", "SDL audio playback device closed."]
    else []
  let st1 := if st.sdlPlaybackStream.isSome then
      { st with sdlPlaybackStream := none, sdlPlaybackDevice := 0 }
    else st
  let log2 := if st1.sdlCaptureStream.isSome then
      ["Closing SDL audio capture device...", "SDL audio capture device closed."]
    else []
  let st2 := if st1.sdlCaptureStream.isSome then
      { st1 with sdlCaptureStream := none, sdlCaptureDevice := 0 }
    else st1
  ({ st2 with audioActive := false, buffer := none, dmapos := 0, dmasize := 0,
              snd_inited := false },
   log1 ++ log2 ++ ["SDL audio shut down."])

/-- `SNDDMA_AvailableCaptureSamples`: with a capture stream open, divide the
byte count reported by `SDL_GetAudioStreamAvailable` (passed here as
`availReport`; SDL can report a negative value on error) by two when it is
positive, else 0; without a stream, 0. -/
def SNDDMA_AvailableCaptureSamples (st : SndState) (availReport : Int) : Int :=
  match st.sdlCaptureStream with
  | some _ => if availReport > 0 then availReport.tdiv 2 else 0
  | none => 0

/-- `SNDDMA_Capture`: copy `samples` mono-16 samples (`samples * 2` bytes)
into the caller's buffer.  `SDL_GetAudioStreamData` supplies
`min (queued bytes) (requested bytes)` (a negative error return is clamped
to 0 as in the source); the remainder of the output is zero-filled.  With
no capture stream the whole output is zero-filled. -/
def SNDDMA_Capture (st : SndState) (samples : Int) : List Nat :=
  match st.sdlCaptureStream with
  | some q =>
    let bytes := samples * 2
    let got0 := if (q.length : Int) < bytes then (q.length : Int) else bytes
    let got := if got0 < 0 then 0 else got0
    q.take got.toNat ++ List.replicate (bytes - got).toNat 0
  | none => List.replicate (samples * 2).toNat 0

/-- Specification-side reading of a ring buffer: the `n` bytes found
starting at offset `q`, continuing cyclically past the end of the buffer,
one byte at a time. -/
def cycRead (buf : List Nat) : Nat → Nat → List Nat
  | _, 0 => []
  | q, n + 1 => buf.getD q 0 :: cycRead buf ((q + 1) % buf.length) n

/-- A concrete well-formed initialized state: a 4-byte ring buffer holding
`[1,2,3,4]`, 16-bit samples (2 bytes per sample), 2 samples, cursor at 0,
and a capture stream with 4 queued bytes. -/
def wfState : SndState :=
  { snd_inited := true, dmapos := 0, dmasize := 4, buffer := some [1, 2, 3, 4],
    samplebits := 16, isfloat := false, channels := 2, samples := 2,
    fullsamples := 1, submission_chunk := 1, speed := 22050,
    sdlPlaybackStream := some (), sdlPlaybackDevice := 1,
    sdlCaptureStream := some [10, 11, 12, 13], sdlCaptureDevice := 2,
    audioActive := true, masterGain := 1 }

/-- The never-initialized state: every field at its zero/empty default. -/
def zeroState : SndState :=
  { snd_inited := false, dmapos := 0, dmasize := 0, buffer := none,
    samplebits := 0, isfloat := false, channels := 0, samples := 0,
    fullsamples := 0, submission_chunk := 0, speed := 0,
    sdlPlaybackStream := none, sdlPlaybackDevice := 0,
    sdlCaptureStream := none, sdlCaptureDevice := 0,
    audioActive := false, masterGain := 1 }

/-- A tiny initialized state for boundary experiments: a 2-byte buffer
`[7,9]` holding a single 16-bit sample (2 bytes per sample). -/
def ceState : SndState :=
  { snd_inited := true, dmapos := 0, dmasize := 2, buffer := some [7, 9],
    samplebits := 16, isfloat := false, channels := 1, samples := 1,
    fullsamples := 1, submission_chunk := 1, speed := 22050,
    sdlPlaybackStream := some (), sdlPlaybackDevice := 1,
    sdlCaptureStream := none, sdlCaptureDevice := 0,
    audioActive := true, masterGain := 1 }

/-- An initialization environment in which every SDL step succeeds but the
ring-buffer allocation fails, with a stereo 16-bit 1024-frame negotiated
format and no mix-samples override. -/
def envAllocFail : InitEnv :=
  { sdlInitOk := true, sdlBits := 16, sdlSpeed := 0, sdlChannels := 2,
    sdlDevSamps := 0, sdlMixSamps := 0, openPlaybackOk := true,
    playbackDevice := 1, getFormatOk := true, obtainedBits := 16,
    obtainedIsFloat := false, obtainedChannels := 2, obtainedFreq := 44100,
    obtainedSamples := 1024, allocOk := false, captureEnabled := true,
    openCaptureOk := true, captureDevice := 2 }

/-! ### Helper lemmas -/

theorem queueSilenceLoop_step (fuel : Nat) (len : Int) (hl : len > 0) :
    queueSilenceLoop (fuel + 1) len =
      List.replicate (if len > 4096 then (4096 : Int) else len).toNat 0 ++
        queueSilenceLoop fuel (len - (if len > 4096 then 4096 else len)) := by
  rw [queueSilenceLoop, if_pos hl]

theorem queueSilenceLoop_eq (fuel : Nat) :
    ∀ len : Int, len ≤ (fuel : Int) →
      queueSilenceLoop fuel len = List.replicate len.toNat 0 := by
  induction fuel with
  | zero =>
    intro len h
    have : len.toNat = 0 := by omega
    simp [queueSilenceLoop, this]
  | succ n ih =>
    intro len h
    by_cases hl : len > 0
    · have hchunk : (if len > 4096 then (4096 : Int) else len) > 0 := by
        split <;> omega
      have hle : (if len > 4096 then (4096 : Int) else len) ≤ len := by
        split <;> omega
      rw [queueSilenceLoop_step n len hl]
      rw [ih (len - (if len > 4096 then (4096 : Int) else len)) (by omega)]
      rw [← List.replicate_add]
      congr 1
      omega
    · have : len.toNat = 0 := by omega
      simp [queueSilenceLoop, hl, this]

theorem queueSilence_spec (len : Int) :
    SNDDMA_QueueSilence len = List.replicate len.toNat 0 :=
  queueSilenceLoop_eq len.toNat len (by omega)

/-- One productive pass of the drain loop in the wrap case
(`dmapos * bps` at or past the end of the buffer resets both cursor and
offset to 0 before copying). -/
theorem audioLoop_step_wrap (buf : List Nat) (dmasize bps : Int) (fuel : Nat)
    (len d L1 : Int) (hL : L1 = if dmasize - 0 > len then len else dmasize - 0)
    (hl : len > 0) (hw : d * bps ≥ dmasize) (hnb : ¬ L1 ≤ 0) :
    audioCallbackLoop buf dmasize bps (fuel + 1) len d =
      ((audioCallbackLoop buf dmasize bps fuel (len - L1) (0 + L1.tdiv bps)).1,
       (audioCallbackLoop buf dmasize bps fuel (len - L1) (0 + L1.tdiv bps)).2.1,
       (buf.drop ((0 : Int).toNat)).take L1.toNat ++
         (audioCallbackLoop buf dmasize bps fuel (len - L1) (0 + L1.tdiv bps)).2.2) := by
  subst hL
  rw [audioCallbackLoop, if_pos hl]
  simp only [if_pos hw, if_neg hnb]

/-- One productive pass of the drain loop in the non-wrap case (`dmapos`
strictly inside the buffer). -/
theorem audioLoop_step_nowrap (buf : List Nat) (dmasize bps : Int) (fuel : Nat)
    (len d L1 : Int)
    (hL : L1 = if dmasize - d * bps > len then len else dmasize - d * bps)
    (hl : len > 0) (hw : ¬ d * bps ≥ dmasize) (hnb : ¬ L1 ≤ 0) :
    audioCallbackLoop buf dmasize bps (fuel + 1) len d =
      ((audioCallbackLoop buf dmasize bps fuel (len - L1) (d + L1.tdiv bps)).1,
       (audioCallbackLoop buf dmasize bps fuel (len - L1) (d + L1.tdiv bps)).2.1,
       (buf.drop ((d * bps).toNat)).take L1.toNat ++
         (audioCallbackLoop buf dmasize bps fuel (len - L1) (d + L1.tdiv bps)).2.2) := by
  subst hL
  rw [audioCallbackLoop, if_pos hl]
  simp only [if_neg hw, if_neg hnb]

/-- Basic facts about the drain loop under a well-formed configuration:
no bytes remain unserved, exactly `len` bytes are emitted, and the final
cursor is non-negative. -/
theorem audioLoop_basic (buf : List Nat) (dmasize bps : Int)
    (hsize : 0 < dmasize) (hbps : 0 < bps) (hbuf : buf.length = dmasize.toNat) :
    ∀ (fuel : Nat) (len d : Int), 0 ≤ d → 0 ≤ len → len ≤ (fuel : Int) →
      (audioCallbackLoop buf dmasize bps fuel len d).2.1 = 0 ∧
      (audioCallbackLoop buf dmasize bps fuel len d).2.2.length = len.toNat ∧
      0 ≤ (audioCallbackLoop buf dmasize bps fuel len d).1 := by
  intro fuel
  induction fuel with
  | zero =>
    intro len d hd hl0 hlf
    have hz : len = 0 := by omega
    subst hz
    simp [audioCallbackLoop, hd]
  | succ n ih =>
    intro len d hd hl0 hlf
    by_cases hl : len > 0
    · by_cases hw : d * bps ≥ dmasize
      · -- wrap to 0
        set len1 := if dmasize - (0 : Int) > len then len else dmasize - 0 with hlen1def
        have h1 : 0 < len1 := by rw [hlen1def]; split <;> omega
        have h2 : len1 ≤ len := by rw [hlen1def]; split <;> omega
        have h3 : len1 ≤ dmasize := by rw [hlen1def]; split <;> omega
        rw [audioLoop_step_wrap buf dmasize bps n len d len1 hlen1def hl hw (by omega)]
        have hdiv : 0 ≤ len1.tdiv bps := Int.tdiv_nonneg (by omega) (by omega)
        obtain ⟨hr1, hr2, hr3⟩ := ih (len - len1) (0 + len1.tdiv bps)
          (by omega) (by omega) (by omega)
        refine ⟨hr1, ?_, hr3⟩
        rw [List.length_append, hr2, List.length_take, List.length_drop]
        omega
      · set len1 := if dmasize - d * bps > len then len else dmasize - d * bps with hlen1def
        have hpos0 : 0 ≤ d * bps := by positivity
        have hposlt : d * bps < dmasize := by omega
        have h1 : 0 < len1 := by rw [hlen1def]; split <;> omega
        have h2 : len1 ≤ len := by rw [hlen1def]; split <;> omega
        have h3 : d * bps + len1 ≤ dmasize := by rw [hlen1def]; split <;> omega
        rw [audioLoop_step_nowrap buf dmasize bps n len d len1 hlen1def hl hw (by omega)]
        have hdiv : 0 ≤ len1.tdiv bps := Int.tdiv_nonneg (by omega) (by omega)
        obtain ⟨hr1, hr2, hr3⟩ := ih (len - len1) (d + len1.tdiv bps)
          (by omega) (by omega) (by omega)
        refine ⟨hr1, ?_, hr3⟩
        rw [List.length_append, hr2, List.length_take, List.length_drop]
        omega
    · have hz : len = 0 := by omega
      subst hz
      simp [audioCallbackLoop, hd]

theorem tdiv_exact {a b : Int} (hb : b ≠ 0) (h : b ∣ a) : a.tdiv b * b = a := by
  obtain ⟨c, rfl⟩ := h
  rw [mul_comm b c, Int.mul_tdiv_cancel c hb]

theorem cycRead_length (buf : List Nat) :
    ∀ (n q : Nat), q < buf.length → (cycRead buf q n).length = n := by
  intro n
  induction n with
  | zero => intro q _; simp [cycRead]
  | succ m ih =>
    intro q hq
    have hL : 0 < buf.length := by omega
    rw [cycRead, List.length_cons, ih ((q + 1) % buf.length) (Nat.mod_lt _ hL)]

theorem cycRead_eq_take_drop (buf : List Nat) :
    ∀ (n q : Nat), q + n ≤ buf.length → cycRead buf q n = (buf.drop q).take n := by
  intro n
  induction n with
  | zero => intro q _; simp [cycRead]
  | succ m ih =>
    intro q hq
    have hqlt : q < buf.length := by omega
    rw [cycRead, List.drop_eq_getElem_cons hqlt, List.take_succ_cons,
      List.getD_eq_getElem buf 0 hqlt]
    congr 1
    rcases Nat.eq_or_lt_of_le (Nat.succ_le_of_lt hqlt) with heq | hlt
    · -- q + 1 = buf.length forces m = 0
      have hm : m = 0 := by omega
      subst hm
      simp [cycRead]
    · rw [Nat.mod_eq_of_lt hlt, ih (q + 1) (by omega)]

theorem cycRead_append (buf : List Nat) :
    ∀ (a b q : Nat), q < buf.length →
      cycRead buf q (a + b) = cycRead buf q a ++ cycRead buf ((q + a) % buf.length) b := by
  intro a
  induction a with
  | zero =>
    intro b q hq
    simp [cycRead, Nat.mod_eq_of_lt hq]
  | succ m ih =>
    intro b q hq
    have hL : 0 < buf.length := by omega
    have hstep : m + 1 + b = (m + b) + 1 := by omega
    rw [hstep, cycRead, cycRead,
      ih b ((q + 1) % buf.length) (Nat.mod_lt _ hL), List.cons_append]
    congr 3
    rw [Nat.mod_add_mod]
    congr 1
    omega

theorem cycRead_full (buf : List Nat) :
    cycRead buf 0 buf.length = buf := by
  rw [cycRead_eq_take_drop buf buf.length 0 (by omega)]
  simp

theorem cycRead_double (buf : List Nat) (h : 0 < buf.length) :
    cycRead buf 0 (buf.length + buf.length) = buf ++ buf := by
  rw [cycRead_append buf buf.length buf.length 0 h, cycRead_full buf]
  simp [Nat.mod_self, cycRead_full buf]

/-- Drain-loop characterization for sample-aligned requests: starting from a
cursor whose byte offset is at most the buffer size, a request of `len`
bytes (a multiple of `bps`, with `bps` dividing the buffer size) emits
exactly the `len` bytes read cyclically from the current offset, and the
final byte offset is congruent to `offset + len` modulo the buffer size
(still at most the buffer size, pending the callback's final reset). -/
theorem audioLoop_aligned (buf : List Nat) (dmasize bps : Int)
    (hsize : 0 < dmasize) (hbps : 0 < bps) (hbuf : buf.length = dmasize.toNat)
    (hdvdN : bps ∣ dmasize) :
    ∀ (fuel : Nat) (len d : Int), 0 ≤ d → 0 ≤ len → len ≤ (fuel : Int) →
      d * bps ≤ dmasize → bps ∣ len →
      (audioCallbackLoop buf dmasize bps fuel len d).2.2
        = cycRead buf ((d * bps).toNat % buf.length) len.toNat ∧
      0 ≤ (audioCallbackLoop buf dmasize bps fuel len d).1 ∧
      (audioCallbackLoop buf dmasize bps fuel len d).1 * bps ≤ dmasize ∧
      ((audioCallbackLoop buf dmasize bps fuel len d).1 * bps).toNat % buf.length
        = ((d * bps).toNat + len.toNat) % buf.length := by
  intro fuel
  have hL : 0 < buf.length := by omega
  induction fuel with
  | zero =>
    intro len d hd hl0 hlf hdle _hdvd
    have hz : len = 0 := by omega
    subst hz
    refine ⟨by simp [audioCallbackLoop, cycRead], by simp [audioCallbackLoop, hd], ?_, ?_⟩
    · simpa [audioCallbackLoop] using hdle
    · simp [audioCallbackLoop]
  | succ n ih =>
    intro len d hd hl0 hlf hdle hdvd
    have hdbps0 : 0 ≤ d * bps := by positivity
    by_cases hl : len > 0
    · by_cases hw : d * bps ≥ dmasize
      · -- entry offset is exactly the buffer size; loop wraps it to 0
        have hqN : d * bps = dmasize := by omega
        set len1 := if dmasize - (0 : Int) > len then len else dmasize - 0 with hlen1def
        have h1 : 0 < len1 := by rw [hlen1def]; split <;> omega
        have h2 : len1 ≤ len := by rw [hlen1def]; split <;> omega
        have h3 : len1 ≤ dmasize := by rw [hlen1def]; split <;> omega
        have hdvd1 : bps ∣ len1 := by
          rw [hlen1def]; split
          · exact hdvd
          · simpa using hdvdN
        rw [audioLoop_step_wrap buf dmasize bps n len d len1 hlen1def hl hw (by omega)]
        have hd0 : (0 + len1.tdiv bps) * bps = len1 := by
          rw [zero_add, tdiv_exact (by omega) hdvd1]
        obtain ⟨hr1, hr2, hr3, hr4⟩ := ih (len - len1) (0 + len1.tdiv bps)
          (by have := Int.tdiv_nonneg (le_of_lt h1) (le_of_lt hbps); omega)
          (by omega) (by omega) (by rw [hd0]; omega)
          ((dvd_sub hdvd hdvd1 : bps ∣ len - len1))
        rw [hd0] at hr1 hr4
        have hq0 : (d * bps).toNat % buf.length = 0 := by
          rw [hqN, ← hbuf, Nat.mod_self]
        refine ⟨?_, hr2, hr3, ?_⟩
        · rw [hr1, hq0]
          have hchunk : (buf.drop ((0 : Int).toNat)).take len1.toNat
              = cycRead buf 0 len1.toNat := by
            rw [cycRead_eq_take_drop buf len1.toNat 0 (by omega)]
            rfl
          rw [hchunk]
          have hsplit : len.toNat = len1.toNat + (len - len1).toNat := by omega
          rw [hsplit, cycRead_append buf len1.toNat ((len - len1).toNat) 0 hL,
            Nat.zero_add]
        · rw [hr4]
          have h5 : len1.toNat + (len - len1).toNat = len.toNat := by omega
          have h6 : (d * bps).toNat = buf.length := by omega
          rw [h5, h6, Nat.add_mod_left]
      · -- entry offset strictly inside the buffer
        have hqlt : (d * bps).toNat < buf.length := by omega
        set len1 := if dmasize - d * bps > len then len else dmasize - d * bps with hlen1def
        have h1 : 0 < len1 := by rw [hlen1def]; split <;> omega
        have h2 : len1 ≤ len := by rw [hlen1def]; split <;> omega
        have h3 : d * bps + len1 ≤ dmasize := by rw [hlen1def]; split <;> omega
        have hdvd1 : bps ∣ len1 := by
          rw [hlen1def]; split
          · exact hdvd
          · exact dvd_sub hdvdN (Dvd.intro d (mul_comm bps d))
        rw [audioLoop_step_nowrap buf dmasize bps n len d len1 hlen1def hl hw (by omega)]
        have hd0 : (d + len1.tdiv bps) * bps = d * bps + len1 := by
          rw [add_mul, tdiv_exact (by omega) hdvd1]
        obtain ⟨hr1, hr2, hr3, hr4⟩ := ih (len - len1) (d + len1.tdiv bps)
          (by have := Int.tdiv_nonneg (le_of_lt h1) (le_of_lt hbps); omega)
          (by omega) (by omega) (by rw [hd0]; omega)
          ((dvd_sub hdvd hdvd1 : bps ∣ len - len1))
        rw [hd0] at hr1 hr4
        have harg : (d * bps + len1).toNat % buf.length
            = ((d * bps).toNat + len1.toNat) % buf.length := by
          congr 1
          omega
        refine ⟨?_, hr2, hr3, ?_⟩
        · rw [hr1, harg]
          have hchunk : (buf.drop ((d * bps).toNat)).take len1.toNat
              = cycRead buf ((d * bps).toNat) len1.toNat := by
            rw [cycRead_eq_take_drop buf len1.toNat ((d * bps).toNat) (by omega)]
          rw [hchunk, Nat.mod_eq_of_lt hqlt]
          have hsplit : len.toNat = len1.toNat + (len - len1).toNat := by omega
          rw [hsplit,
            cycRead_append buf len1.toNat ((len - len1).toNat) ((d * bps).toNat) hqlt]
        · rw [hr4]
          congr 1
          omega
    · have hz : len = 0 := by omega
      subst hz
      refine ⟨by simp [audioCallbackLoop, cycRead], by simp [audioCallbackLoop, hd], ?_, ?_⟩
      · simpa [audioCallbackLoop] using hdle
      · simp [audioCallbackLoop]

theorem callback_eq_nolen (st : SndState) (a t len : Int)
    (hlen : len = if a > 0 then a else t) (hl : len ≤ 0) :
    SNDDMA_AudioCallback st a t = ⟨st, [], []⟩ := by
  subst hlen
  simp only [SNDDMA_AudioCallback, if_pos hl]

theorem callback_eq_degraded (st : SndState) (a t len : Int)
    (hlen : len = if a > 0 then a else t) (hl : ¬ len ≤ 0)
    (hg : st.snd_inited = false ∨ st.buffer = none ∨ st.dmasize ≤ 0 ∨
      st.samplebits.tdiv 8 ≤ 0) :
    SNDDMA_AudioCallback st a t = ⟨st, SNDDMA_QueueSilence len, []⟩ := by
  subst hlen
  simp only [SNDDMA_AudioCallback, if_neg hl, if_pos hg]

theorem callback_eq_guarded (st : SndState) (a t len bps : Int) (buf : List Nat)
    (hlen : len = if a > 0 then a else t) (hbps : bps = st.samplebits.tdiv 8)
    (hb : st.buffer = some buf) (hl : ¬ len ≤ 0)
    (hinit : st.snd_inited = true) (hds : ¬ st.dmasize ≤ 0) (hbp : ¬ bps ≤ 0) :
    SNDDMA_AudioCallback st a t =
      ⟨{ st with dmapos :=
          if (audioCallbackLoop buf st.dmasize bps len.toNat len st.dmapos).1 * bps
              ≥ st.dmasize
          then 0 else (audioCallbackLoop buf st.dmasize bps len.toNat len st.dmapos).1 },
        (audioCallbackLoop buf st.dmasize bps len.toNat len st.dmapos).2.2 ++
          (if (audioCallbackLoop buf st.dmasize bps len.toNat len st.dmapos).2.1 > 0
           then SNDDMA_QueueSilence
             (audioCallbackLoop buf st.dmasize bps len.toNat len st.dmapos).2.1
           else []),
        [] ⟩ := by
  subst hlen
  subst hbps
  have hg : ¬ (st.snd_inited = false ∨ st.buffer = none ∨ st.dmasize ≤ 0 ∨
      st.samplebits.tdiv 8 ≤ 0) := by
    simp only [not_or]
    exact ⟨by simp [hinit], by simp [hb], hds, hbp⟩
  simp only [SNDDMA_AudioCallback, if_neg hl, if_neg hg]
  rw [hb]
  simp only [Option.getD_some]

/-- The callback touches `dmapos` only: every other state field is
unchanged, and nothing is printed. -/
theorem callback_frame (st : SndState) (a t : Int) :
    (SNDDMA_AudioCallback st a t).st.snd_inited = st.snd_inited ∧
    (SNDDMA_AudioCallback st a t).st.dmasize = st.dmasize ∧
    (SNDDMA_AudioCallback st a t).st.buffer = st.buffer ∧
    (SNDDMA_AudioCallback st a t).st.samplebits = st.samplebits ∧
    (SNDDMA_AudioCallback st a t).st.isfloat = st.isfloat ∧
    (SNDDMA_AudioCallback st a t).st.channels = st.channels ∧
    (SNDDMA_AudioCallback st a t).st.samples = st.samples ∧
    (SNDDMA_AudioCallback st a t).st.fullsamples = st.fullsamples ∧
    (SNDDMA_AudioCallback st a t).st.submission_chunk = st.submission_chunk ∧
    (SNDDMA_AudioCallback st a t).st.speed = st.speed ∧
    (SNDDMA_AudioCallback st a t).st.sdlPlaybackStream = st.sdlPlaybackStream ∧
    (SNDDMA_AudioCallback st a t).st.sdlPlaybackDevice = st.sdlPlaybackDevice ∧
    (SNDDMA_AudioCallback st a t).st.sdlCaptureStream = st.sdlCaptureStream ∧
    (SNDDMA_AudioCallback st a t).st.sdlCaptureDevice = st.sdlCaptureDevice ∧
    (SNDDMA_AudioCallback st a t).st.audioActive = st.audioActive ∧
    (SNDDMA_AudioCallback st a t).st.masterGain = st.masterGain ∧
    (SNDDMA_AudioCallback st a t).log = [] := by
  simp only [SNDDMA_AudioCallback]
  split_ifs <;> simp

/-- One well-formed guarded invocation: exactly `len` bytes come out, and
the cursor lands back inside the buffer. -/
theorem callback_step_basic (st : SndState) (a t len bps : Int) (buf : List Nat)
    (hlen : len = if a > 0 then a else t) (hbpsdef : bps = st.samplebits.tdiv 8)
    (hinit : st.snd_inited = true) (hb : st.buffer = some buf)
    (hblen : buf.length = st.dmasize.toNat) (hsize : 0 < st.dmasize)
    (hbps : 0 < bps) (hd : 0 ≤ st.dmapos) (hl : 0 < len) :
    (SNDDMA_AudioCallback st a t).out.length = len.toNat ∧
    0 ≤ (SNDDMA_AudioCallback st a t).st.dmapos ∧
    (SNDDMA_AudioCallback st a t).st.dmapos * bps < st.dmasize := by
  rw [callback_eq_guarded st a t len bps buf hlen hbpsdef hb (by omega) hinit
    (by omega) (by omega)]
  obtain ⟨hr1, hr2, hr3⟩ := audioLoop_basic buf st.dmasize bps
    hsize hbps hblen len.toNat len st.dmapos hd (by omega) (by omega)
  refine ⟨?_, ?_, ?_⟩
  · dsimp only
    rw [List.length_append, hr1, hr2]
    simp
  · dsimp only
    split <;> omega
  · dsimp only
    split
    · simpa using hsize
    · omega

theorem runCallbacks_cons (st : SndState) (l : Int) (rest : List Int) :
    runCallbacks st (l :: rest) =
      ((runCallbacks (SNDDMA_AudioCallback st l l).st rest).1,
       (SNDDMA_AudioCallback st l l).out ++
         (runCallbacks (SNDDMA_AudioCallback st l l).st rest).2) := by
  rw [runCallbacks]

/-- Any sequence of positive-length invocations from a well-formed
initialized state keeps the cursor in range and leaves every field other
than the cursor unchanged. -/
theorem run_preserves_inv (reqs : List Int) :
    ∀ (st : SndState) (buf : List Nat), st.snd_inited = true →
      st.buffer = some buf → buf.length = st.dmasize.toNat → 0 < st.dmasize →
      0 < st.samplebits.tdiv 8 → 0 ≤ st.dmapos →
      st.dmapos * st.samplebits.tdiv 8 < st.dmasize →
      (∀ l ∈ reqs, 0 < l) →
      0 ≤ (runCallbacks st reqs).1.dmapos ∧
      (runCallbacks st reqs).1.dmapos * st.samplebits.tdiv 8 < st.dmasize ∧
      (runCallbacks st reqs).1.dmasize = st.dmasize ∧
      (runCallbacks st reqs).1.samplebits = st.samplebits ∧
      (runCallbacks st reqs).1.samples = st.samples ∧
      (runCallbacks st reqs).1.buffer = st.buffer ∧
      (runCallbacks st reqs).1.snd_inited = st.snd_inited := by
  induction reqs with
  | nil =>
    intro st buf _ _ _ _ _ hd hlt _
    exact ⟨hd, hlt, rfl, rfl, rfl, rfl, rfl⟩
  | cons l rest ih =>
    intro st buf hinit hb hblen hsize hbps hd _hlt hreqs
    have hl : 0 < l := hreqs l (by simp)
    have hlen : l = if l > 0 then l else l := by rw [if_pos hl]
    obtain ⟨_hout, hd2, hlt2⟩ := callback_step_basic st l l l (st.samplebits.tdiv 8)
      buf hlen rfl hinit hb hblen hsize hbps hd hl
    obtain ⟨hf1, hf2, hf3, hf4, _, _, hf7, _, _, _, _, _, _, _, _, _, _⟩ :=
      callback_frame st l l
    rw [runCallbacks_cons]
    have ihr := ih (SNDDMA_AudioCallback st l l).st buf (by rw [hf1, hinit])
      (by rw [hf3, hb]) (by rw [hf2]; exact hblen) (by rw [hf2]; exact hsize)
      (by rw [hf4]; exact hbps) hd2 (by rw [hf4, hf2]; exact hlt2)
      (fun x hx => hreqs x (by simp [hx]))
    obtain ⟨hi1, hi2, hi3, hi4, hi5, hi6, hi7⟩ := ihr
    refine ⟨hi1, ?_, ?_, ?_, ?_, ?_, ?_⟩
    · rw [hf4, hf2] at hi2
      exact hi2
    · rw [hi3, hf2]
    · rw [hi4, hf4]
    · rw [hi5, hf7]
    · rw [hi6, hf3]
    · rw [hi7, hf1]

/-- One aligned guarded invocation emits exactly the bytes read cyclically
from the cursor's byte offset, and moves that offset to
`(offset + len) mod size`. -/
theorem callback_step_aligned (st : SndState) (a t len bps : Int) (buf : List Nat)
    (hlen : len = if a > 0 then a else t) (hbpsdef : bps = st.samplebits.tdiv 8)
    (hinit : st.snd_inited = true) (hb : st.buffer = some buf)
    (hblen : buf.length = st.dmasize.toNat) (hsize : 0 < st.dmasize)
    (hbps : 0 < bps) (hd : 0 ≤ st.dmapos)
    (hdlt : st.dmapos * bps < st.dmasize) (hdvdN : bps ∣ st.dmasize)
    (hl : 0 < len) (hdvdL : bps ∣ len) :
    (SNDDMA_AudioCallback st a t).out
      = cycRead buf ((st.dmapos * bps).toNat) len.toNat ∧
    0 ≤ (SNDDMA_AudioCallback st a t).st.dmapos ∧
    (SNDDMA_AudioCallback st a t).st.dmapos * bps < st.dmasize ∧
    ((SNDDMA_AudioCallback st a t).st.dmapos * bps).toNat
      = ((st.dmapos * bps).toNat + len.toNat) % buf.length := by
  have hL : 0 < buf.length := by omega
  rw [callback_eq_guarded st a t len bps buf hlen hbpsdef hb (by omega) hinit
    (by omega) (by omega)]
  obtain ⟨hb1, _hb2, _hb3⟩ := audioLoop_basic buf st.dmasize bps
    hsize hbps hblen len.toNat len st.dmapos hd (by omega) (by omega)
  obtain ⟨ha1, ha2, ha3, ha4⟩ := audioLoop_aligned buf st.dmasize bps
    hsize hbps hblen hdvdN len.toNat len st.dmapos hd (by omega) (by omega)
    (by omega) hdvdL
  have hq : (st.dmapos * bps).toNat % buf.length = (st.dmapos * bps).toNat := by
    apply Nat.mod_eq_of_lt
    have : 0 ≤ st.dmapos * bps := by positivity
    omega
  rw [hq] at ha1
  refine ⟨?_, ?_, ?_, ?_⟩
  · dsimp only
    rw [hb1, ha1]
    simp
  · dsimp only
    split <;> omega
  · dsimp only
    split
    · simpa using hsize
    · omega
  · dsimp only
    split
    · -- the final byte offset reached the buffer size: the cursor resets to 0
      rename_i hge
      have hEnd : ((audioCallbackLoop buf st.dmasize bps len.toNat len st.dmapos).1
          * bps).toNat = buf.length := by omega
      rw [hEnd, Nat.mod_self] at ha4
      simpa using ha4
    · rename_i hge
      have hlt2 : ((audioCallbackLoop buf st.dmasize bps len.toNat len st.dmapos).1
          * bps).toNat < buf.length := by omega
      rw [Nat.mod_eq_of_lt hlt2] at ha4
      exact ha4

theorem sum_toNat_eq (reqs : List Int) :
    (∀ l ∈ reqs, 0 ≤ l) → ((reqs.map Int.toNat).sum : Int) = reqs.sum := by
  induction reqs with
  | nil => intro _; simp
  | cons l rest ih =>
    intro h
    have h1 : 0 ≤ l := h l (by simp)
    have h2 := ih (fun x hx => h x (by simp [hx]))
    simp only [List.map_cons, List.sum_cons]
    omega

/-- A sequence of aligned positive-length invocations emits exactly the
bytes read cyclically from the starting byte offset, and moves that offset
to `(start + total) mod size`. -/
theorem run_aligned (reqs : List Int) :
    ∀ (st : SndState) (buf : List Nat) (bps : Int), bps = st.samplebits.tdiv 8 →
      st.snd_inited = true → st.buffer = some buf →
      buf.length = st.dmasize.toNat → 0 < st.dmasize → 0 < bps →
      0 ≤ st.dmapos → st.dmapos * bps < st.dmasize → bps ∣ st.dmasize →
      (∀ l ∈ reqs, 0 < l ∧ bps ∣ l) →
      (runCallbacks st reqs).2
        = cycRead buf ((st.dmapos * bps).toNat) ((reqs.map Int.toNat).sum) ∧
      ((runCallbacks st reqs).1.dmapos * bps).toNat
        = ((st.dmapos * bps).toNat + (reqs.map Int.toNat).sum) % buf.length := by
  induction reqs with
  | nil =>
    intro st buf bps hbd _ _ hblen hsize hbps hd hdlt _ _
    have hq : 0 ≤ st.dmapos * bps := by positivity
    constructor
    · simp [runCallbacks, cycRead]
    · simp only [runCallbacks, List.map_nil, List.sum_nil, Nat.add_zero]
      rw [Nat.mod_eq_of_lt (by omega)]
  | cons l rest ih =>
    intro st buf bps hbd hinit hb hblen hsize hbps hd hdlt hdvdN hreqs
    have hq0 : 0 ≤ st.dmapos * bps := by positivity
    have hqlt : (st.dmapos * bps).toNat < buf.length := by omega
    have hl : 0 < l := (hreqs l (by simp)).1
    have hdvdl : bps ∣ l := (hreqs l (by simp)).2
    have hlen : l = if l > 0 then l else l := by rw [if_pos hl]
    obtain ⟨hs1, hs2, hs3, hs4⟩ := callback_step_aligned st l l l bps buf
      hlen hbd hinit hb hblen hsize hbps hd hdlt hdvdN hl hdvdl
    obtain ⟨hf1, hf2, hf3, hf4, _, _, _, _, _, _, _, _, _, _, _, _, _⟩ :=
      callback_frame st l l
    have ihr := ih (SNDDMA_AudioCallback st l l).st buf bps
      (by rw [hbd, hf4]) (by rw [hf1, hinit]) (by rw [hf3, hb])
      (by rw [hf2]; exact hblen) (by rw [hf2]; exact hsize) hbps hs2
      (by rw [hf2]; exact hs3) (by rw [hf2]; exact hdvdN)
      (fun x hx => hreqs x (by simp [hx]))
    obtain ⟨hi1, hi2⟩ := ihr
    rw [runCallbacks_cons]
    constructor
    · dsimp only
      rw [hs1, hi1, hs4]
      simp only [List.map_cons, List.sum_cons]
      rw [cycRead_append buf l.toNat ((rest.map Int.toNat).sum)
        ((st.dmapos * bps).toNat) hqlt]
    · dsimp only
      rw [hi2, hs4, Nat.mod_add_mod]
      simp only [List.map_cons, List.sum_cons]
      congr 1
      omega

/-! ### Claim theorems -/

/-- C1: for every requested byte count `len > 0` (the `additional_amount`
when positive, else the `total_amount`), one invocation of
`SNDDMA_AudioCallback` emits exactly `len` bytes to the output stream,
whatever the ring-buffer state (real buffer bytes first, silence padding
for any remainder, and all silence on the degraded path).  Well-formedness
of the embedding is assumed: a non-negative cursor and, when a buffer is
allocated, backing storage of exactly `dmasize` bytes. -/
theorem C1_output_length (st : SndState) (a t : Int)
    (hd : 0 ≤ st.dmapos)
    (hbuf : st.buffer = none ∨ (st.buffer.getD []).length = st.dmasize.toNat)
    (hl : 0 < (if a > 0 then a else t)) :
    (SNDDMA_AudioCallback st a t).out.length = (if a > 0 then a else t).toNat := by
  by_cases hg : st.snd_inited = false ∨ st.buffer = none ∨ st.dmasize ≤ 0 ∨
    st.samplebits.tdiv 8 ≤ 0
  · rw [callback_eq_degraded st a t _ rfl (by omega) hg]
    dsimp only
    rw [queueSilence_spec]
    simp
  · push_neg at hg
    obtain ⟨hinit, hbne, hds, hbp⟩ := hg
    have hinit2 : st.snd_inited = true := by
      cases h : st.snd_inited
      · exact absurd h hinit
      · rfl
    obtain ⟨buf, hb⟩ := Option.ne_none_iff_exists'.mp hbne
    have hblen : buf.length = st.dmasize.toNat := by
      rcases hbuf with h | h
      · rw [hb] at h; cases h
      · rw [hb] at h; simpa using h
    exact (callback_step_basic st a t _ _ buf rfl rfl hinit2 hb hblen
      (by omega) (by omega) hd hl).1

/-- C1 witness: a concrete 10-byte request against the 4-byte buffer of
`wfState` produces exactly 10 bytes. -/
theorem C1_output_length_witness :
    (SNDDMA_AudioCallback wfState 10 0).out.length = ((10 : Int)).toNat := by
  have h := C1_output_length wfState 10 0 (by decide) (by decide) (by decide)
  simpa using h

/-- C2: starting from an initialized state (allocated buffer of `dmasize`
bytes, positive `dmasize` and positive byte width) whose cursor satisfies
the invariant, any sequence of positive-length callback invocations leaves
the cursor with `0 ≤ dmapos`, `dmapos * bytesPerSample < dmasize`, and
(given `dmasize = samples * bytesPerSample`) `dmapos < samples`.  Since the
request sequence is universally quantified, the invariant holds after every
prefix, i.e. after every invocation. -/
theorem C2_cursor_invariant (st : SndState) (buf : List Nat) (reqs : List Int)
    (hinit : st.snd_inited = true) (hb : st.buffer = some buf)
    (hblen : buf.length = st.dmasize.toNat) (hsize : 0 < st.dmasize)
    (hbps : 0 < st.samplebits.tdiv 8) (hd : 0 ≤ st.dmapos)
    (hdlt : st.dmapos * st.samplebits.tdiv 8 < st.dmasize)
    (hsamp : st.dmasize = st.samples * st.samplebits.tdiv 8)
    (hreqs : ∀ l ∈ reqs, 0 < l) :
    0 ≤ (runCallbacks st reqs).1.dmapos ∧
    (runCallbacks st reqs).1.dmapos * st.samplebits.tdiv 8 < st.dmasize ∧
    (runCallbacks st reqs).1.dmapos < st.samples := by
  obtain ⟨h1, h2, _, _, _, _, _⟩ :=
    run_preserves_inv reqs st buf hinit hb hblen hsize hbps hd hdlt hreqs
  refine ⟨h1, h2, ?_⟩
  have h3 := h2
  rw [hsamp] at h3
  exact lt_of_mul_lt_mul_right h3 (le_of_lt hbps)

/-- C2 witness: three invocations (4, 3 and 2 bytes) on `wfState` keep the
cursor in `[0, samples)`. -/
theorem C2_cursor_invariant_witness :
    0 ≤ (runCallbacks wfState [4, 3, 2]).1.dmapos ∧
    (runCallbacks wfState [4, 3, 2]).1.dmapos * wfState.samplebits.tdiv 8
      < wfState.dmasize ∧
    (runCallbacks wfState [4, 3, 2]).1.dmapos < wfState.samples :=
  C2_cursor_invariant wfState [1, 2, 3, 4] [4, 3, 2] (by decide) (by decide)
    (by decide) (by decide) (by decide) (by decide) (by decide) (by decide)
    (by decide)

/-- C4: a positive-length invocation in a degraded state (uninitialized,
unallocated buffer, non-positive buffer size, or non-positive byte width)
emits exactly `len` zero bytes and leaves the state untouched. -/
theorem C4_silence_degradation (st : SndState) (a t : Int)
    (hl : 0 < (if a > 0 then a else t))
    (hg : st.snd_inited = false ∨ st.buffer = none ∨ st.dmasize ≤ 0 ∨
      st.samplebits.tdiv 8 ≤ 0) :
    (SNDDMA_AudioCallback st a t).out
      = List.replicate (if a > 0 then a else t).toNat 0 ∧
    (SNDDMA_AudioCallback st a t).st = st := by
  rw [callback_eq_degraded st a t _ rfl (by omega) hg]
  exact ⟨queueSilence_spec _, rfl⟩

/-- C4 witness: a 5-byte request before initialization yields five zero
bytes and no state change. -/
theorem C4_silence_degradation_witness :
    (SNDDMA_AudioCallback zeroState 5 0).out = List.replicate 5 0 ∧
    (SNDDMA_AudioCallback zeroState 5 0).st = zeroState := by
  have h := C4_silence_degradation zeroState 5 0 (by decide) (by decide)
  simpa using h

/-- C3 fails as stated: on `ceState` (buffer `[7,9]`, `N = 2` bytes, 2-byte
samples, cursor at 0), the four positive requests `[1,1,1,1]` sum to
`2N = 4`, yet the emitted bytes are `[7,7,7,7]`, not two passes
`[7,9,7,9]`: a request smaller than one sample advances the cursor by
`1 / 2 = 0` samples, so the same byte is emitted again. -/
theorem C3_counterexample :
    (∀ l ∈ [(1 : Int), 1, 1, 1], 0 < l) ∧
    List.sum [(1 : Int), 1, 1, 1] = 2 * ceState.dmasize ∧
    ceState.dmapos = 0 ∧
    (runCallbacks ceState [1, 1, 1, 1]).2 ≠ [7, 9] ++ [7, 9] := by decide

/-- C3 (amended): for a ring buffer of `N` bytes with the cursor at 0, and
every sequence of positive callback request lengths, *each a multiple of
the byte width of one sample*, whose sum is exactly `2N`, the concatenation
of all bytes emitted equals two complete passes over the buffer contents,
with no byte skipped and no byte duplicated at the wrap boundary. -/
theorem C3_wrap_correctness (st : SndState) (buf : List Nat) (reqs : List Int)
    (hinit : st.snd_inited = true) (hb : st.buffer = some buf)
    (hblen : buf.length = st.dmasize.toNat) (hsize : 0 < st.dmasize)
    (hbps : 0 < st.samplebits.tdiv 8) (hd0 : st.dmapos = 0)
    (hsamp : st.dmasize = st.samples * st.samplebits.tdiv 8)
    (hreqs : ∀ l ∈ reqs, 0 < l ∧ st.samplebits.tdiv 8 ∣ l)
    (hsum : reqs.sum = 2 * st.dmasize) :
    (runCallbacks st reqs).2 = buf ++ buf := by
  have hdvdN : st.samplebits.tdiv 8 ∣ st.dmasize :=
    ⟨st.samples, by rw [hsamp]; ring⟩
  obtain ⟨h1, _⟩ := run_aligned reqs st buf (st.samplebits.tdiv 8) rfl hinit hb
    hblen hsize hbps (by omega) (by rw [hd0]; simpa using hsize) hdvdN hreqs
  simp only [hd0, zero_mul, Int.toNat_zero] at h1
  have hc := sum_toNat_eq reqs (fun l hl => le_of_lt (hreqs l hl).1)
  have hsumN : (reqs.map Int.toNat).sum = buf.length + buf.length := by omega
  rw [hsumN] at h1
  rw [h1, cycRead_double buf (by omega)]

/-- C3 witness: aligned requests `[2,4,2]` (sum `2N = 8`) on `wfState`
reproduce the buffer `[1,2,3,4]` twice. -/
theorem C3_wrap_correctness_witness :
    (runCallbacks wfState [2, 4, 2]).2 = [1, 2, 3, 4] ++ [1, 2, 3, 4] :=
  C3_wrap_correctness wfState [1, 2, 3, 4] [2, 4, 2] (by decide) (by decide)
    (by decide) (by decide) (by decide) (by decide) (by decide) (by decide)
    (by decide)

/-- C5 fails as stated: a mix-samples override of `-5` is non-zero, so per
the claim the sample count would be the override (rounded down to a
multiple of the 2 channels, i.e. `-5 - (-5 % 2) = -4`), but the code's
`tmp <= 0` fallback also fires on negative overrides and yields
`2 * 2048 = 4096`. -/
theorem C5_counterexample :
    dmaSamples (-5) 1024 2 = 4096 ∧
    (-5 : Int) - Int.tmod (-5) 2 = -4 ∧
    dmaSamples (-5) 1024 2 ≠ (-5 : Int) - Int.tmod (-5) 2 := by decide

/-- C5 (amended): the sample count is the mix-samples override when that is
*positive*; with no override (zero) it is
`negotiatedBufferFrames * negotiatedChannels * 10` when that is positive;
any non-positive candidate — a negative override, or a zero-or-negative
derivation — falls back to `channels * 2048`; and in every case the result
is rounded down to an exact multiple of the channel count (an override of
4097 with 2 channels yields 4096). -/
theorem C5_buffer_sizing (mix obt ch : Int) :
    (0 < mix → dmaSamples mix obt ch = mix - mix.tmod ch) ∧
    (mix = 0 → 0 < obt * ch * 10 →
      dmaSamples mix obt ch = obt * ch * 10 - (obt * ch * 10).tmod ch) ∧
    (mix < 0 → dmaSamples mix obt ch = ch * 2048 - (ch * 2048).tmod ch) ∧
    (mix = 0 → obt * ch * 10 ≤ 0 →
      dmaSamples mix obt ch = ch * 2048 - (ch * 2048).tmod ch) ∧
    ch ∣ dmaSamples mix obt ch ∧
    dmaSamples 4097 obt 2 = 4096 := by
  have hdvd : ∀ x : Int, ch ∣ x - x.tmod ch := by
    intro x
    have h : x - x.tmod ch = ch * x.tdiv ch := by
      rw [Int.tmod_def]
      ring
    rw [h]
    exact dvd_mul_right ch _
  refine ⟨?_, ?_, ?_, ?_, ?_, ?_⟩
  · intro h
    simp only [dmaSamples, if_neg (show ¬ mix = 0 by omega),
      if_neg (show ¬ mix ≤ 0 by omega)]
  · intro h0 hpos
    simp only [dmaSamples, if_pos h0, if_neg (show ¬ obt * ch * 10 ≤ 0 by omega)]
  · intro h
    simp only [dmaSamples, if_neg (show ¬ mix = 0 by omega),
      if_pos (show mix ≤ 0 by omega)]
  · intro h0 hle
    simp only [dmaSamples, if_pos h0, if_pos hle]
  · simp only [dmaSamples]
    exact hdvd _
  · simp only [dmaSamples, if_neg (show ¬ (4097 : Int) = 0 by decide),
      if_neg (show ¬ (4097 : Int) ≤ 0 by decide)]
    decide

/-- C5 witness: a positive override of 20 with 4 channels is used as-is and
rounded: `20 - 20 % 4 = 20`. -/
theorem C5_buffer_sizing_witness :
    dmaSamples 20 0 4 = 20 - Int.tmod 20 4 :=
  (C5_buffer_sizing 20 0 4).1 (by decide)

/-- C6: for every `count ≥ 0`, `SNDDMA_Capture` yields exactly `2 * count`
bytes: all zero when no capture stream exists, and when the stream holds
only `k ≤ 2 * count` bytes, those bytes followed by zeros, so the caller
never observes a short read. -/
theorem C6_capture_fill (st : SndState) (count : Int) (hc : 0 ≤ count) :
    (SNDDMA_Capture st count).length = (2 * count).toNat ∧
    (st.sdlCaptureStream = none →
      SNDDMA_Capture st count = List.replicate (2 * count).toNat 0) ∧
    (∀ q, st.sdlCaptureStream = some q → (q.length : Int) ≤ 2 * count →
      SNDDMA_Capture st count
        = q ++ List.replicate ((2 * count).toNat - q.length) 0) := by
  rcases h : st.sdlCaptureStream with _ | q
  · simp only [SNDDMA_Capture, h]
    refine ⟨?_, fun _ => ?_, ?_⟩
    · simp
      omega
    · congr 1
      omega
    · intro q hq
      simp at hq
  · simp only [SNDDMA_Capture, h]
    have hg1 : 0 ≤ (if (q.length : Int) < count * 2 then (q.length : Int)
        else count * 2) := by
      split <;> omega
    have hg2 : (if (q.length : Int) < count * 2 then (q.length : Int)
        else count * 2) ≤ (q.length : Int) := by
      split <;> omega
    rw [if_neg (show ¬ (if (q.length : Int) < count * 2 then (q.length : Int)
        else count * 2) < 0 by omega)]
    refine ⟨?_, ?_, ?_⟩
    · rw [List.length_append, List.length_take, List.length_replicate]
      split at hg2 <;> omega
    · intro hq
      simp at hq
    · intro q2 hq2 hle
      rw [Option.some_inj] at hq2
      subst hq2
      have hgq : (if (q.length : Int) < count * 2 then (q.length : Int)
          else count * 2) = (q.length : Int) := by
        split <;> omega
      rw [hgq, show ((q.length : Int)).toNat = q.length by omega,
        List.take_length,
        show ((count * 2 - (q.length : Int)).toNat) = (2 * count).toNat - q.length
          by omega]

/-- C6 witness: four samples requested from the capture stream of `wfState`
(4 queued bytes) give those 4 bytes plus 4 zero bytes — 8 bytes in all. -/
theorem C6_capture_fill_witness :
    (SNDDMA_Capture wfState 4).length = 8 ∧
    SNDDMA_Capture wfState 4 = [10, 11, 12, 13] ++ List.replicate 4 0 := by
  have h := C6_capture_fill wfState 4 (by decide)
  refine ⟨by simpa using h.1, ?_⟩
  have h2 := h.2.2 [10, 11, 12, 13] (by decide) (by decide)
  simpa using h2

/-- C7 fails as stated: with every SDL step succeeding but the buffer
allocation failing, `SNDDMA_Init` returns failure and releases the stream
and subsystem, yet the `dma` size field written before the allocation
attempt is not restored — it changes from 0 to 40960. -/
theorem C7_counterexample :
    (SNDDMA_Init envAllocFail zeroState).1 = false ∧
    (SNDDMA_Init envAllocFail zeroState).2.dmasize ≠ zeroState.dmasize := by
  decide

/-- C7 (amended): whenever `SNDDMA_Init` returns failure (from a clean
pre-call state: no stream, zero device handle, subsystem inactive, no
buffer), every resource acquired by the earlier steps of that call has been
released: the playback stream is destroyed and its handle reset, the audio
subsystem is shut down, the buffer stays unallocated, the initialized flag
and the capture fields and gain are as before the call.  However, the dma
format/size fields written before a failed allocation (samplebits, channels,
samples, speed, dmasize, ...) retain their new values rather than being
restored. -/
theorem C7_init_failure_unwinds (env : InitEnv) (st : SndState)
    (hstream : st.sdlPlaybackStream = none) (hdev : st.sdlPlaybackDevice = 0)
    (hact : st.audioActive = false) (hbuf : st.buffer = none)
    (hfail : (SNDDMA_Init env st).1 = false) :
    (SNDDMA_Init env st).2.sdlPlaybackStream = none ∧
    (SNDDMA_Init env st).2.sdlPlaybackDevice = 0 ∧
    (SNDDMA_Init env st).2.audioActive = false ∧
    (SNDDMA_Init env st).2.buffer = none ∧
    (SNDDMA_Init env st).2.snd_inited = st.snd_inited ∧
    (SNDDMA_Init env st).2.sdlCaptureStream = st.sdlCaptureStream ∧
    (SNDDMA_Init env st).2.sdlCaptureDevice = st.sdlCaptureDevice ∧
    (SNDDMA_Init env st).2.masterGain = st.masterGain := by
  simp only [SNDDMA_Init] at hfail ⊢
  split_ifs at hfail ⊢ <;> simp_all

/-- C7 witness: instantiating the amended theorem on the allocation-failure
environment from the zero state. -/
theorem C7_init_failure_unwinds_witness :
    (SNDDMA_Init envAllocFail zeroState).2.sdlPlaybackStream = none ∧
    (SNDDMA_Init envAllocFail zeroState).2.sdlPlaybackDevice = 0 ∧
    (SNDDMA_Init envAllocFail zeroState).2.audioActive = false ∧
    (SNDDMA_Init envAllocFail zeroState).2.buffer = none ∧
    (SNDDMA_Init envAllocFail zeroState).2.snd_inited = zeroState.snd_inited ∧
    (SNDDMA_Init envAllocFail zeroState).2.sdlCaptureStream
      = zeroState.sdlCaptureStream ∧
    (SNDDMA_Init envAllocFail zeroState).2.sdlCaptureDevice
      = zeroState.sdlCaptureDevice ∧
    (SNDDMA_Init envAllocFail zeroState).2.masterGain = zeroState.masterGain :=
  C7_init_failure_unwinds envAllocFail zeroState rfl rfl rfl rfl (by decide)

/-- C8: `SNDDMA_Shutdown` is safe without prior initialization and
idempotent: after any call (from a state whose device handles are zero
whenever the matching stream is absent, as in every reachable state) the
cursor and size are 0, the buffer and both streams are gone, both device
handles are 0, the initialized flag is cleared — and a second call produces
exactly the same state. -/
theorem C8_shutdown_idempotent (st : SndState)
    (h1 : st.sdlPlaybackStream = none → st.sdlPlaybackDevice = 0)
    (h2 : st.sdlCaptureStream = none → st.sdlCaptureDevice = 0) :
    (SNDDMA_Shutdown st).1.dmapos = 0 ∧
    (SNDDMA_Shutdown st).1.dmasize = 0 ∧
    (SNDDMA_Shutdown st).1.buffer = none ∧
    (SNDDMA_Shutdown st).1.sdlPlaybackStream = none ∧
    (SNDDMA_Shutdown st).1.sdlPlaybackDevice = 0 ∧
    (SNDDMA_Shutdown st).1.sdlCaptureStream = none ∧
    (SNDDMA_Shutdown st).1.sdlCaptureDevice = 0 ∧
    (SNDDMA_Shutdown st).1.snd_inited = false ∧
    (SNDDMA_Shutdown (SNDDMA_Shutdown st).1).1 = (SNDDMA_Shutdown st).1 := by
  rcases hp : st.sdlPlaybackStream with _ | u <;>
    rcases hc : st.sdlCaptureStream with _ | q <;>
      simp_all [SNDDMA_Shutdown]

/-- C8 witness: shutdown from the never-initialized zero state. -/
theorem C8_shutdown_idempotent_witness :
    (SNDDMA_Shutdown zeroState).1.dmapos = 0 ∧
    (SNDDMA_Shutdown zeroState).1.dmasize = 0 ∧
    (SNDDMA_Shutdown zeroState).1.buffer = none ∧
    (SNDDMA_Shutdown zeroState).1.sdlPlaybackStream = none ∧
    (SNDDMA_Shutdown zeroState).1.sdlPlaybackDevice = 0 ∧
    (SNDDMA_Shutdown zeroState).1.sdlCaptureStream = none ∧
    (SNDDMA_Shutdown zeroState).1.sdlCaptureDevice = 0 ∧
    (SNDDMA_Shutdown zeroState).1.snd_inited = false ∧
    (SNDDMA_Shutdown (SNDDMA_Shutdown zeroState).1).1
      = (SNDDMA_Shutdown zeroState).1 :=
  C8_shutdown_idempotent zeroState (fun _ => rfl) (fun _ => rfl)

/-- C9: every invocation of the playback callback mutates only the read
cursor: the ring-buffer contents, the buffer size, the negotiated format
fields, the stream handles, the gain and all remaining fields are unchanged,
and no console line is emitted. -/
theorem C9_callback_frame_effect (st : SndState) (a t : Int) :
    (SNDDMA_AudioCallback st a t).st.snd_inited = st.snd_inited ∧
    (SNDDMA_AudioCallback st a t).st.dmasize = st.dmasize ∧
    (SNDDMA_AudioCallback st a t).st.buffer = st.buffer ∧
    (SNDDMA_AudioCallback st a t).st.samplebits = st.samplebits ∧
    (SNDDMA_AudioCallback st a t).st.isfloat = st.isfloat ∧
    (SNDDMA_AudioCallback st a t).st.channels = st.channels ∧
    (SNDDMA_AudioCallback st a t).st.samples = st.samples ∧
    (SNDDMA_AudioCallback st a t).st.fullsamples = st.fullsamples ∧
    (SNDDMA_AudioCallback st a t).st.submission_chunk = st.submission_chunk ∧
    (SNDDMA_AudioCallback st a t).st.speed = st.speed ∧
    (SNDDMA_AudioCallback st a t).st.sdlPlaybackStream = st.sdlPlaybackStream ∧
    (SNDDMA_AudioCallback st a t).st.sdlPlaybackDevice = st.sdlPlaybackDevice ∧
    (SNDDMA_AudioCallback st a t).st.sdlCaptureStream = st.sdlCaptureStream ∧
    (SNDDMA_AudioCallback st a t).st.sdlCaptureDevice = st.sdlCaptureDevice ∧
    (SNDDMA_AudioCallback st a t).st.audioActive = st.audioActive ∧
    (SNDDMA_AudioCallback st a t).st.masterGain = st.masterGain ∧
    (SNDDMA_AudioCallback st a t).log = [] :=
  callback_frame st a t

/-- C10: `SNDDMA_AvailableCaptureSamples` never returns a negative value:
with a capture stream it returns the reported queued byte count divided by
2 when that count is positive and 0 otherwise (in particular on a negative
error report), and it returns 0 with no capture stream. -/
theorem C10_available_capture_samples (st : SndState) (availReport : Int) :
    0 ≤ SNDDMA_AvailableCaptureSamples st availReport ∧
    (st.sdlCaptureStream = none →
      SNDDMA_AvailableCaptureSamples st availReport = 0) ∧
    (availReport ≤ 0 → SNDDMA_AvailableCaptureSamples st availReport = 0) ∧
    (∀ q, st.sdlCaptureStream = some q → 0 < availReport →
      SNDDMA_AvailableCaptureSamples st availReport = availReport.tdiv 2) := by
  rcases h : st.sdlCaptureStream with _ | q
  · simp [SNDDMA_AvailableCaptureSamples, h]
  · simp only [SNDDMA_AvailableCaptureSamples, h]
    refine ⟨?_, ?_, ?_, ?_⟩
    · split
      · rename_i hpos
        exact Int.tdiv_nonneg (by omega) (by omega)
      · exact le_refl 0
    · intro hq
      simp at hq
    · intro hle
      rw [if_neg (by omega)]
    · intro q2 _ hpos
      rw [if_pos hpos]

/-- C10 witness: 9 reported bytes on the open capture stream of `wfState`
yield `9 / 2 = 4` samples. -/
theorem C10_available_capture_samples_witness :
    SNDDMA_AvailableCaptureSamples wfState 9 = (9 : Int).tdiv 2 :=
  (C10_available_capture_samples wfState 9).2.2.2 [10, 11, 12, 13] rfl
    (by decide)

end SdlSnd
